import Mathlib

/-!
Verification of the OPAL_GUI ring-assembly core.

This file gives a shallow embedding of the ring-assembly state machine,
the bounds resolver and the input validator of the repository
(`GUI_prototype_10.py`, `GUI_dicts.py`) and proves the specification
claims about them.

Modelling conventions:
* Python floats are modelled as exact numbers: the validator works over `ℚ`
  (fully executable), the machine is generic over a `LinearOrderedField K`
  (instantiated at `ℚ` for executable witnesses and at `ℝ` where the
  constant `π` from `radius * 2 * np.pi` is needed), and geometry over `ℝ`.
* `str(x)` for a float `x`, used only to build display strings, is an
  abstract parameter `vstr : K → String` (and `vstrL` for lists); no claim
  depends on its output.
* The display strings `element_display` / `cell_display` are kept as the
  list of their lines: the source stores `line1 ++ "\n" ++ ... ++ lineN ++ "\n"`
  and manipulates it only through `split("\n")`, so `string[-2]` is the last
  line and `string[:-2]` followed by re-joining with `"\n"` drops the last
  line.  Appended lines never contain a newline (they are built from element
  names, parameter names and `str` of numbers).
-/

/-! ## Input validator (`GUI_prototype_10.py`, `validate_input` / `validation_loop`) -/

/-- Numeric value of a list of decimal digit characters, most significant first. -/
def digitsVal (cs : List Char) : ℕ :=
  cs.foldl (fun n c => n * 10 + (c.toNat - '0'.toNat)) 0

/-- Model of Python `float(user_input)` on plain decimal literals:
an optional sign, then digits with an optional single decimal point
(`"12"`, `"-3.5"`, `"1."`, `".5"`).  Returns `none` when the string is not
of this shape (the `except` branch of `validate_input`).  Exponents,
`inf`/`nan` and surrounding whitespace are outside the fragment the GUI
feeds to `float` and are not modelled. -/
def parseFloat (s : String) : Option ℚ :=
  let cs := s.data
  let sign : ℚ := if cs.head? = some '-' then -1 else 1
  let body := if cs.head? = some '-' ∨ cs.head? = some '+' then cs.tail else cs
  let intPart := body.takeWhile (·.isDigit)
  let rest := body.dropWhile (·.isDigit)
  if rest = [] then
    if intPart = [] then none
    else some (sign * digitsVal intPart)
  else if rest.head? = some '.' ∧ rest.tail.all (·.isDigit) ∧
      (intPart ≠ [] ∨ rest.tail ≠ []) then
    some (sign * ((digitsVal intPart : ℚ) + digitsVal rest.tail / 10 ^ rest.tail.length))
  else none

/-- `validate_input(user_input, lower_bound, upper_bound)`: returns the pair
`(valid, message)` exactly as the source does — `(None, "must be numerical")`
when the input does not parse, `(None, "not in bounds")` when the parsed
value is outside `[lower_bound, upper_bound]`, and `(value, None)` otherwise. -/
def validate_input (user_input : String) (lower_bound upper_bound : ℚ) :
    Option ℚ × Option String :=
  match parseFloat user_input with
  | none => (none, some "must be numerical")
  | some v =>
    if lower_bound ≤ v ∧ v ≤ upper_bound then (some v, none)
    else (none, some "not in bounds")

/-- Loop body of `validation_loop`, iterating over the positionally matched
pairs of raw input and `[lower, upper]` bounds, carrying the accumulated
`settings_list`, `invalid_flag` and `display_message`.  Each failing
position sets the flag and overwrites the message; each passing value is
appended to the accumulator. -/
def validation_go (pairs : List (String × ℚ × ℚ)) (settings_list : List ℚ)
    (invalid_flag : Bool) (display_message : String) : List ℚ × Bool × String :=
  match pairs with
  | [] => (settings_list, invalid_flag, display_message)
  | (raw, lb, ub) :: rest =>
    match validate_input raw lb ub with
    | (none, message) =>
      validation_go rest settings_list true (message.getD display_message)
    | (some v, _) =>
      validation_go rest (settings_list ++ [v]) invalid_flag display_message

/-- `validation_loop(input_list, bounds_list, settings_list)`: validates each
raw input against the bounds pair at the same position (the source indexes
`bounds_list[i]` while iterating over `input_list`; the claims assume the
two lists are matched 1:1, which the `zip` realises), starting from
`invalid_flag = False` and `display_message = ""`. -/
def validation_loop (input_list : List String) (bounds_list : List (ℚ × ℚ))
    (settings_list : List ℚ) : List ℚ × Bool × String :=
  validation_go (input_list.zip bounds_list) settings_list false ""

/-- Whether one raw/bounds position passes validation. -/
def passes (p : String × ℚ × ℚ) : Bool :=
  (validate_input p.1 p.2.1 p.2.2).1.isSome

/-- The error message a failing position produces. -/
def failMessage (p : String × ℚ × ℚ) : String :=
  (validate_input p.1 p.2.1 p.2.2).2.getD ""

/-! ## Bounds resolver (`GUI_dicts.py`, `define_bounds_dict`) -/

/-- `sys.float_info.min`, the smallest positive normal double, `2 ^ (-1022)`. -/
noncomputable def MIN_FLOAT : ℝ := (2 ^ 1022 : ℝ)⁻¹

/-- `sys.float_info.max`, the largest finite double, `(2 - 2 ^ (-52)) * 2 ^ 1023`. -/
noncomputable def MAX_FLOAT : ℝ := (2 ^ 1024 : ℝ) - 2 ^ 971

/-- `GUI_dicts.define_bounds_dict(radius)`: the dictionary of
`[lower, upper]` bound pairs for every setting of every element (and the
beam), keyed by element name, exactly as written in `GUI_dicts.py`.
Note the function takes a single argument `radius`. -/
noncomputable def define_bounds_dict (radius : ℝ) : List (String × List (ℝ × ℝ)) :=
  [ ("beam",
      [ (1.00000001, MAX_FLOAT), (-MAX_FLOAT, MAX_FLOAT), (-MAX_FLOAT, MAX_FLOAT),
        (-MAX_FLOAT, MAX_FLOAT), (-MAX_FLOAT, MAX_FLOAT), (-MAX_FLOAT, MAX_FLOAT),
        (-MAX_FLOAT, MAX_FLOAT) ]),
    ("Scaling FFA magnet",
      [ (-2, 2), (MIN_FLOAT, 10), (MIN_FLOAT, radius / 4), (MIN_FLOAT, radius / 40),
        (MIN_FLOAT, radius / 4), (MIN_FLOAT, radius), (MIN_FLOAT, radius) ]),
    ("Drift", [ (MIN_FLOAT, Real.pi) ]),
    ("RF Cavity",
      [ (0, MAX_FLOAT), (0, MAX_FLOAT), (0, MAX_FLOAT), (0, MAX_FLOAT), (0, MAX_FLOAT),
        (0, MAX_FLOAT), (0, MAX_FLOAT), (0, MAX_FLOAT), (0, MAX_FLOAT) ]),
    ("RF more", [ (MIN_FLOAT, MAX_FLOAT), (MIN_FLOAT, radius), (MIN_FLOAT, radius) ]),
    ("Multipole", [ (0, MAX_FLOAT), (0, radius), (0, radius), (0, 5) ]),
    ("Multipole more", [ (-2, 2), (-2, 2), (-2, 2), (-2, 2), (-2, 2) ]) ]

/-- Error raised by a Python call whose argument count does not match the
callee's signature. -/
inductive PyCallError where
  | typeError
  deriving DecidableEq

/-- A call of `GUI_dicts.define_bounds_dict` with an argument list, modelling
Python's positional-arity check: the function's signature declares exactly
one parameter, so any other number of arguments raises `TypeError` before
the body runs. -/
noncomputable def call_define_bounds_dict (args : List ℝ) :
    Except PyCallError (List (String × List (ℝ × ℝ))) :=
  match args with
  | [radius] => .ok (define_bounds_dict radius)
  | _ => .error .typeError

/-- The invocation the GUI makes before every element add
(`GUI_prototype_10.py` line 410):
`self.BOUNDS_DICT = GUI_dicts.define_bounds_dict(self.radius, self.ring_space)` —
two positional arguments. -/
noncomputable def add_element_bounds (radius ring_space : ℝ) :
    Except PyCallError (List (String × List (ℝ × ℝ))) :=
  call_define_bounds_dict [radius, ring_space]

/-- The bounds pair at position `i` of the list stored under key `key`
(`BOUNDS_DICT[key][i]`); `(0, 0)` as an out-of-range default, never hit in
the claims. -/
noncomputable def boundsAt (radius : ℝ) (key : String) (i : ℕ) : ℝ × ℝ :=
  (((define_bounds_dict radius).lookup key).getD []).getD i (0, 0)

/-! ## Ring/cell assembly state machine (`GUI_prototype_10.py`, class `Gui`)

The machine is generic over the numeric type `K` (a linear ordered field;
`ℚ` for executable witnesses, `ℝ` for the real session whose initial
`ring_space` is `radius * 2 * π`) and over the type `α` of the engine-facing
element descriptors stored in `py_list` / `cell`: the state machine never
inspects a descriptor, it only appends and removes them, exactly as the
source appends the pre-built `add` records to the shared `py_list`. -/

/-- The mutable session state of the `Gui` object: the ring under
construction (`ring_space`, `space_list`, `py_list`, `element_display`,
`full`), the optional repeatable cell (`cell`, `cell_length_list`,
`cell_size`, `cell_display`) and the mode flags. -/
structure GuiState (K : Type) (α : Type) where
  radius : K
  ring_space : K
  full : Bool
  made_cell : Bool
  making_cell : Bool
  cell : List α
  cell_length_list : List K
  cell_size : K
  cell_display : List String
  space_list : List K
  py_list : List α
  element_display : List String
  deriving DecidableEq

/-- One display line as built by `update_with_element`:
`new_element` followed by `", " + key + ": " + str(value)` for each entry of
`display_settings` (the value already rendered to a string). -/
def displayLine (new_element : String) (display_settings : List (String × String)) : String :=
  new_element ++ String.join (display_settings.map fun kv => ", " ++ kv.1 ++ ": " ++ kv.2)

section Machine

variable {K : Type} [LinearOrderedField K] {α : Type}

/-- `Gui.update_with_element(py_list, new_element, display_settings, length, add)`:
appends the rendered line to the active display, and either (cell being
recorded) pushes `length` on `cell_length_list`, adds it to `cell_size` and
appends `add` to `cell`, or (ring) subtracts `length` from `ring_space`,
pushes it on `space_list` and appends `add` to `py_list`. -/
def update_with_element (s : GuiState K α) (new_element : String)
    (display_settings : List (String × String)) (length : K) (add : α) : GuiState K α :=
  if s.making_cell then
    { s with
      cell_display := s.cell_display ++ [displayLine new_element display_settings]
      cell_length_list := s.cell_length_list ++ [length]
      cell_size := s.cell_size + length
      cell := s.cell ++ [add] }
  else
    { s with
      element_display := s.element_display ++ [displayLine new_element display_settings]
      ring_space := s.ring_space - length
      space_list := s.space_list ++ [length]
      py_list := s.py_list ++ [add] }

variable (vstr : K → String) (vstrL : List K → String)

/-- `Gui.add_ffa_mag`: computes `f_end = f_start + f_centre_length +
f_end_length * 4` from the positionally read `chosen_settings`, checks
`ring_space - f_end >= 0`, and either records the magnet through
`update_with_element` (length `f_end`) or displays the "Ring full" label
and sets the `full` flag, adding nothing. -/
def add_ffa_mag (s : GuiState K α) (b0 k_value f_start f_end_length f_centre_length
    radial_neg_extent radial_pos_extent : K) (add : α) : GuiState K α :=
  let f_end := f_start + f_centre_length + f_end_length * 4
  let temp_space := s.ring_space - f_end
  if 0 ≤ temp_space then
    update_with_element s "Scaling FFA magnet"
      [("b0", vstr b0), ("k", vstr k_value), ("start", vstr f_start),
       ("centre_length", vstr f_centre_length), ("end length", vstr f_end_length)]
      f_end add
  else
    { s with full := true }

/-- The length a drift consumes: `length = self.radius * req_angle`. -/
def drift_length (radius req_angle : K) : K := radius * req_angle

/-- `Gui.add_drift`: records the drift unconditionally through
`update_with_element` with length `radius * req_angle`. -/
def add_drift (s : GuiState K α) (req_angle : K) (add : α) : GuiState K α :=
  update_with_element s "Drift" [("angle", vstr req_angle)]
    (drift_length s.radius req_angle) add

/-- `Gui.add_multipole`: records the multipole unconditionally through
`update_with_element` with the chosen `length` (the descriptor also carries
the derived arc angle, which the machine never reads). -/
def add_multipole (s : GuiState K α) (length : K) (t_p : List K) (add : α) : GuiState K α :=
  update_with_element s "Multipole" [("fields", vstrL t_p), ("length", vstr length)] length add

/-- `Gui.add_rf`: records the RF cavity unconditionally through
`update_with_element` with the chosen `length`. -/
def add_rf (s : GuiState K α) (length width height : K) (add : α) : GuiState K α :=
  update_with_element s "RF"
    [("length", vstr length), ("width", vstr width), ("height", vstr height)] length add

/-- The `new_element == "Cell"` branch of `Gui.add_element`: checks
`ring_space - cell_size >= 0`; on success appends the line `"Cell "` to the
display, sets `ring_space` to the reduced value, pushes `cell_size` as one
entry of `space_list` and appends every descriptor of `cell` to `py_list`;
otherwise displays the "Ring full" label and sets the `full` flag. -/
def add_element_cell (s : GuiState K α) : GuiState K α :=
  let temp_space := s.ring_space - s.cell_size
  if 0 ≤ temp_space then
    { s with
      element_display := s.element_display ++ ["Cell "]
      ring_space := temp_space
      space_list := s.space_list ++ [s.cell_size]
      py_list := s.py_list ++ s.cell }
  else
    { s with full := true }

/-- Python's `del py_list[len(cell) * -1:]`: for `n ≥ 1` this removes the
last `n` entries, but for `n = 0` the slice `[-0:]` is `[0:]` and the whole
list is cleared. -/
def delTrailing (l : List α) (n : ℕ) : List α :=
  if n = 0 then [] else l.take (l.length - n)

/-- `Gui.delete_element`: returns the new state and the failure message.
With a cell being recorded it pops the last cell entry; otherwise it pops
the last ring unit — all of the cell's descriptors when the last display
line is the cell-replay marker `"Cell "`, one descriptor otherwise — and
restores the popped length from the stack to `ring_space`.  On an empty
target it prints "Already empty" and changes nothing.  (The reads
`space_list[-1]` / `cell_length_list[-1]` are modelled with a default of
`0`; states where they would fail are not reachable.) -/
def delete_element (s : GuiState K α) : GuiState K α × Option String :=
  if s.making_cell then
    if 0 < s.cell.length then
      ({ s with
          cell_display := s.cell_display.dropLast
          cell := s.cell.dropLast
          cell_size := s.cell_size - (s.cell_length_list.getLast?.getD 0)
          cell_length_list := s.cell_length_list.dropLast }, none)
    else
      (s, some "Already empty")
  else
    if 0 < s.py_list.length then
      ({ s with
          element_display := s.element_display.dropLast
          py_list :=
            if s.element_display.getLast?.getD "" = "Cell " then
              delTrailing s.py_list s.cell.length
            else
              s.py_list.dropLast
          ring_space := s.ring_space + (s.space_list.getLast?.getD 0)
          space_list := s.space_list.dropLast }, none)
    else
      (s, some "Already empty")

/-- The user-level operations of one ring-build session: the five element
additions (each carrying its validated `chosen_settings` and the descriptor
record the corresponding `add_*` method builds) and delete-last. -/
inductive Op (K : Type) (α : Type) where
  | addMag (b0 k_value f_start f_end_length f_centre_length
      radial_neg_extent radial_pos_extent : K) (add : α)
  | addDrift (req_angle : K) (add : α)
  | addMultipole (length horizontal_aperture vertical_aperture : K)
      (t_p : List K) (add : α)
  | addRF (length width height : K) (add : α)
  | addCell
  | deleteLast
  deriving DecidableEq

/-- Whether an operation is an element add (as opposed to a delete). -/
def Op.isAdd : Op K α → Bool
  | .deleteLast => false
  | _ => true

/-- One user action.  An add goes through `Gui.add_element`, which first
clears the `full` flag (destroying the "Ring full" label) and then runs the
chosen `add_*` method; `Cell` is handled inside `add_element` itself.
A delete runs `Gui.delete_element`. -/
def step (s : GuiState K α) : Op K α → GuiState K α
  | .addMag b0 k fs fel fcl rn rp add =>
      add_ffa_mag vstr { s with full := false } b0 k fs fel fcl rn rp add
  | .addDrift req_angle add => add_drift vstr { s with full := false } req_angle add
  | .addMultipole length _ _ t_p add =>
      add_multipole vstr vstrL { s with full := false } length t_p add
  | .addRF length width height add => add_rf vstr { s with full := false } length width height add
  | .addCell => add_element_cell { s with full := false }
  | .deleteLast => (delete_element s).1

/-- Run a sequence of user actions. -/
def run (s : GuiState K α) (ops : List (Op K α)) : GuiState K α :=
  ops.foldl (step vstr vstrL) s

end Machine

/-- The state at the start of the ring-building phase (`Gui.design_ring`):
no elements yet (`space_list = []`, empty display, `py_list` empty), the
`full` flag clear, cell recording over; the cell fields hold whatever the
(possibly skipped) recording phase left.  `space0` is the `ring_space`
set by `Gui.setup_ring`, namely `radius * 2 * np.pi` for a real session. -/
def designRingInit {K : Type} [LinearOrderedField K] {α : Type}
    (radius space0 : K) (made_cell : Bool) (cell : List α)
    (cell_length_list : List K) (cell_size : K) (cell_display : List String) :
    GuiState K α :=
  { radius := radius
    ring_space := space0
    full := false
    made_cell := made_cell
    making_cell := false
    cell := cell
    cell_length_list := cell_length_list
    cell_size := cell_size
    cell_display := cell_display
    space_list := []
    py_list := []
    element_display := [] }

/-- The state right after `Gui.setup_ring` confirmed the radius:
`ring_space = radius * 2 * np.pi`, all flags clear, nothing recorded. -/
noncomputable def setupState (α : Type) (radius : ℝ) : GuiState ℝ α :=
  designRingInit radius (radius * 2 * Real.pi) false [] [] 0 []

/-! ## Drift builder geometry (`Gui.add_drift` settings) -/

/-- The descriptor settings `Gui.add_drift` builds for the
`LocalCartesianOffset` element, from `bend_direction`, the ring radius and
the validated `req_angle`. -/
noncomputable def add_drift_settings (bend_direction radius req_angle : ℝ) :
    List (String × ℝ) :=
  [ ("end_position_x", bend_direction * radius * (Real.cos req_angle - 1)),
    ("end_position_y", radius * Real.sin req_angle),
    ("end_normal_x", -bend_direction * Real.sin req_angle),
    ("end_normal_y", Real.cos req_angle) ]

/-! ## Invariants used in the proofs -/

/-- How many descriptors of `py_list` the display line `line` accounts for:
`len(cell)` for the cell-replay marker, `1` for every ordinary element. -/
def blockSize (cellLen : ℕ) (line : String) : ℕ :=
  if line = "Cell " then cellLen else 1

/-- Well-formedness of a ring-phase state relative to the fixed finalized
cell `cell0` and the initial space `space0`: ring mode, unchanged cell,
conservation `ring_space = space0 - sum(space_list)`, one display line and
one stack entry per recorded unit, `py_list` partitioned into the units'
descriptor blocks, and cell-replay markers present only for a nonempty cell. -/
def RingInv {K : Type} [LinearOrderedField K] {α : Type}
    (cell0 : List α) (space0 : K) (s : GuiState K α) : Prop :=
  s.making_cell = false ∧
  s.cell = cell0 ∧
  s.ring_space = space0 - s.space_list.sum ∧
  s.element_display.length = s.space_list.length ∧
  s.py_list.length = (s.element_display.map (blockSize cell0.length)).sum ∧
  (∀ line ∈ s.element_display, line = "Cell " → cell0 ≠ [])

/-! ## Theorems: input validator (claims C7, C4) -/

/-- A failing `validate_input` always carries an error message. -/
theorem validate_input_none_message (raw : String) (lb ub : ℚ)
    (h : (validate_input raw lb ub).1 = none) :
    ∃ w, (validate_input raw lb ub).2 = some w := by
  unfold validate_input at h ⊢
  cases hp : parseFloat raw with
  | none => exact ⟨_, rfl⟩
  | some v =>
    rw [hp] at h
    dsimp only at h ⊢
    by_cases hb : lb ≤ v ∧ v ≤ ub
    · rw [if_pos hb] at h; exact absurd h (by simp)
    · rw [if_neg hb]; exact ⟨_, rfl⟩

/-- `Option.elim` over the last element of a list with one more element in
front: the fallback moves to the head. -/
theorem getLast?_elim_cons {β γ : Type} (a : β) (l : List β) (m : γ) (f : β → γ) :
    ((a :: l).getLast?.elim m f : γ) = l.getLast?.elim (f a) f := by
  cases l with
  | nil => simp
  | cons b t =>
    have h : (b :: t).getLast?.isSome := by
      rw [List.getLast?_isSome]; simp
    obtain ⟨x, hx⟩ := Option.isSome_iff_exists.mp h
    rw [List.getLast?_cons_cons, hx]
    rfl

/-- Closed form of the `validation_loop` recursion: the accumulator receives
exactly the values of the passing positions in order, the flag records
whether any position failed, and the message is the message of the **last**
failing position (the loop overwrites it at every failure). -/
theorem validation_go_spec (pairs : List (String × ℚ × ℚ)) (acc : List ℚ)
    (flag : Bool) (msg : String) :
    validation_go pairs acc flag msg =
      (acc ++ pairs.filterMap (fun p => (validate_input p.1 p.2.1 p.2.2).1),
       flag || pairs.any (fun p => !(passes p)),
       ((pairs.filter (fun p => !(passes p))).getLast?.elim msg failMessage)) := by
  induction pairs generalizing acc flag msg with
  | nil => simp [validation_go]
  | cons p rest ih =>
    obtain ⟨raw, lb, ub⟩ := p
    rcases hv : validate_input raw lb ub with ⟨v?, m⟩
    cases v? with
    | none =>
      obtain ⟨w, hw⟩ := validate_input_none_message raw lb ub (by rw [hv])
      rw [hv] at hw
      subst hw
      have hpass : passes (raw, lb, ub) = false := by
        simp [passes, hv]
      simp only [validation_go, hv, ih, Option.getD_some]
      rw [List.filter_cons_of_pos (by simp [hpass]), getLast?_elim_cons]
      simp only [Prod.mk.injEq]
      refine ⟨by simp [hv], by simp [hpass], ?_⟩
      have hf : failMessage (raw, lb, ub) = w := by
        simp [failMessage, hv]
      rw [hf]
    | some v =>
      have hpass : passes (raw, lb, ub) = true := by
        simp [passes, hv]
      simp only [validation_go, hv, ih]
      rw [List.filter_cons_of_neg (by simp [hpass])]
      simp only [Prod.mk.injEq]
      refine ⟨by simp [hv], by simp [hpass], trivial⟩

/-- If every element of a list is sent to `some` value, `filterMap`
preserves the length. -/
theorem length_filterMap_of_forall_isSome {β γ : Type} (f : β → Option γ) (l : List β)
    (h : ∀ x ∈ l, (f x).isSome) : (l.filterMap f).length = l.length := by
  induction l with
  | nil => simp
  | cons a t ih =>
    obtain ⟨y, hy⟩ := Option.isSome_iff_exists.mp (h a (by simp))
    rw [List.filterMap_cons, hy]
    simp only [List.length_cons, ih fun x hx => h x (by simp [hx])]

/-- C4 (amended): `validation_loop` iterates positions in order; it keeps
scanning after a failure and still appends every passing value, so the
output values are the subsequence of individually-passing values (not
index-aligned with the raw inputs once a failure occurred);
`invalid_flag = false` exactly when every position validated, in which case
there are exactly `len(raws)` output values in original order; and the
returned message is the **last** failing position's message — the claim's
"first failure's message" is the one part the code does not satisfy. -/
theorem c4_validation_batch (raws : List String) (bounds : List (ℚ × ℚ))
    (hlen : raws.length = bounds.length) :
    (validation_loop raws bounds []).1 =
      (raws.zip bounds).filterMap (fun p => (validate_input p.1 p.2.1 p.2.2).1) ∧
    ((validation_loop raws bounds []).2.1 = false ↔
      ∀ p ∈ raws.zip bounds, passes p = true) ∧
    ((validation_loop raws bounds []).2.1 = false →
      (validation_loop raws bounds []).1.length = raws.length) ∧
    (validation_loop raws bounds []).2.2 =
      ((raws.zip bounds).filter (fun p => !(passes p))).getLast?.elim "" failMessage := by
  rw [validation_loop, validation_go_spec]
  refine ⟨by simp, by simp, ?_, rfl⟩
  intro hall
  simp only [Bool.false_or, List.any_eq_false, Bool.not_eq_true'] at hall
  simp only [List.nil_append]
  rw [length_filterMap_of_forall_isSome _ _ (fun p hp => by
        have hp2 := hall p hp
        simp only [passes, Bool.not_eq_true, Option.not_isSome,
          Option.isNone_iff_eq_none] at hp2
        simpa [Option.isSome_iff_ne_none] using hp2)]
  rw [List.length_zip, hlen, min_self]

/-- Witness for the C4 theorem at a concrete all-passing batch. -/
theorem c4_validation_batch_witness :
    (["1", "7"].length = [((0 : ℚ), 9), (0, 9)].length) ∧
    ((validation_loop ["1", "7"] [(0, 9), (0, 9)] []).1 =
      (["1", "7"].zip [((0 : ℚ), 9), (0, 9)]).filterMap
        (fun p => (validate_input p.1 p.2.1 p.2.2).1) ∧
    ((validation_loop ["1", "7"] [(0, 9), (0, 9)] []).2.1 = false ↔
      ∀ p ∈ ["1", "7"].zip [((0 : ℚ), 9), (0, 9)], passes p = true) ∧
    ((validation_loop ["1", "7"] [(0, 9), (0, 9)] []).2.1 = false →
      (validation_loop ["1", "7"] [(0, 9), (0, 9)] []).1.length = ["1", "7"].length) ∧
    (validation_loop ["1", "7"] [(0, 9), (0, 9)] []).2.2 =
      ((["1", "7"].zip [((0 : ℚ), 9), (0, 9)]).filter
        (fun p => !(passes p))).getLast?.elim "" failMessage) :=
  ⟨rfl, c4_validation_batch ["1", "7"] [(0, 9), (0, 9)] rfl⟩

/-- Counterexample for C4 as frozen: with two failing positions of different
kinds the loop returns `([], True, "not in bounds")` — the **last**
failure's message — although the first failing position ("abc") fails with
"must be numerical". -/
theorem c4_counterexample :
    validation_loop ["abc", "5"] [(0, 1), (0, 1)] [] = ([], true, "not in bounds") ∧
    validate_input "abc" 0 1 = (none, some "must be numerical") := by
  have habc : validate_input "abc" 0 1 = (none, some "must be numerical") := by
    unfold validate_input
    have : parseFloat "abc" = none := by simp +decide [parseFloat]
    rw [this]
  have h5 : validate_input "5" 0 1 = (none, some "not in bounds") := by
    unfold validate_input
    have : parseFloat "5" = some 5 := by simp +decide [parseFloat, digitsVal]
    rw [this]
    dsimp only
    rw [if_neg (by norm_num)]
  have hp1 : passes ("abc", 0, 1) = false := by simp [passes, habc]
  have hp2 : passes ("5", 0, 1) = false := by simp [passes, h5]
  refine ⟨?_, habc⟩
  rw [validation_loop, validation_go_spec]
  simp only [List.zip_cons_cons, List.zip_nil_right, Prod.mk.injEq]
  refine ⟨?_, ?_, ?_⟩
  · simp [habc, h5]
  · simp [hp1]
  · rw [List.filter_cons_of_pos (by simp [hp1]), List.filter_cons_of_pos (by simp [hp2])]
    simp only [List.filter_nil, List.getLast?_cons_cons, List.getLast?_singleton,
      Option.elim_some]
    simp [failMessage, h5]

/-- C7: `validate_input` fails with the not-numeric message exactly on
non-parsing input; on a parsed value `v` it fails with the bounds message
when `v < lower` or `v > upper` and succeeds with `v` when
`lower ≤ v ≤ upper` — both bounds inclusive. -/
theorem c7_validate_one (raw : String) (lower upper : ℚ) :
    (parseFloat raw = none →
      validate_input raw lower upper = (none, some "must be numerical")) ∧
    (∀ v, parseFloat raw = some v → v < lower ∨ upper < v →
      validate_input raw lower upper = (none, some "not in bounds")) ∧
    (∀ v, parseFloat raw = some v → lower ≤ v → v ≤ upper →
      validate_input raw lower upper = (some v, none)) := by
  refine ⟨fun h => ?_, fun v hv hout => ?_, fun v hv h1 h2 => ?_⟩
  · unfold validate_input
    rw [h]
  · unfold validate_input
    rw [hv]
    dsimp only
    rw [if_neg]
    rintro ⟨hl, hu⟩
    rcases hout with hc | hc
    · exact absurd hl (not_le.mpr hc)
    · exact absurd hu (not_le.mpr hc)
  · unfold validate_input
    rw [hv]
    dsimp only
    rw [if_pos ⟨h1, h2⟩]

/-- Witness for C7 at the spec's example inputs, including both inclusive
boundary cases. -/
theorem c7_validate_one_witness :
    validate_input "abc" 0 1 = (none, some "must be numerical") ∧
    validate_input "5" 0 1 = (none, some "not in bounds") ∧
    validate_input "0.5" 0 1 = (some (1 / 2), none) ∧
    validate_input "1" 0 1 = (some 1, none) ∧
    validate_input "0" 0 1 = (some 0, none) :=
  ⟨(c7_validate_one "abc" 0 1).1 (by simp +decide [parseFloat]),
   (c7_validate_one "5" 0 1).2.1 5 (by simp +decide [parseFloat, digitsVal])
     (by norm_num),
   (c7_validate_one "0.5" 0 1).2.2 (1 / 2)
     (by simp +decide [parseFloat, digitsVal]; norm_num) (by norm_num) (by norm_num),
   (c7_validate_one "1" 0 1).2.2 1 (by simp +decide [parseFloat, digitsVal])
     (by norm_num) (by norm_num),
   (c7_validate_one "0" 0 1).2.2 0 (by simp +decide [parseFloat, digitsVal])
     (by norm_num) (by norm_num)⟩

/-! ## Theorems: bounds resolver (claims C6, C5) -/

/-- C6 (code bug): the bounds-resolver invocation made before every element
add passes two positional arguments `(radius, ring_space)`, but
`GUI_dicts.define_bounds_dict` declares exactly one parameter, so the call
raises `TypeError` instead of returning a table — for every radius and
every ring_space.  With the declared single argument the function does
return the complete table for the seven fixed keys. -/
theorem c6_bounds_resolver_arity :
    (∀ radius ring_space : ℝ,
      add_element_bounds radius ring_space = .error .typeError) ∧
    (∀ radius : ℝ,
      call_define_bounds_dict [radius] = .ok (define_bounds_dict radius) ∧
      (define_bounds_dict radius).map Prod.fst =
        ["beam", "Scaling FFA magnet", "Drift", "RF Cavity", "RF more",
         "Multipole", "Multipole more"]) :=
  ⟨fun _ _ => rfl, fun _ => ⟨rfl, rfl⟩⟩

/-- C5 (code bug): the magnet bounds, read positionally in the order the
builder `Gui.add_ffa_mag` reads `chosen_settings`
(`[b0, field index, f_start, f_end_length, f_centre_length,
radial_neg_extent, radial_pos_extent]`), give the start length (position 2)
the upper bound `radius / 4`, the **end length (position 3) the upper bound
`radius / 40`**, and the **centre length (position 4) the upper bound
`radius / 4`** — the opposite of the claim (and of the widget labels of
`GUI_dicts.make_all_options`, which put "centre length (0 to radius/40)" at
position 3 and "end length (0 to radius/4)" at position 4).  The two bounds
really differ (`radius / 40 < radius / 4` for positive radius), and all
length lower bounds are the strictly positive `MIN_FLOAT`. -/
theorem c5_magnet_length_bounds (radius : ℝ) (hr : 0 < radius) :
    boundsAt radius "Scaling FFA magnet" 2 = (MIN_FLOAT, radius / 4) ∧
    boundsAt radius "Scaling FFA magnet" 3 = (MIN_FLOAT, radius / 40) ∧
    boundsAt radius "Scaling FFA magnet" 4 = (MIN_FLOAT, radius / 4) ∧
    radius / 40 < radius / 4 ∧
    0 < MIN_FLOAT := by
  refine ⟨rfl, rfl, rfl, by linarith, ?_⟩
  rw [MIN_FLOAT]
  positivity

/-- Witness for C5 at `radius = 40`: the pair at the builder's end-length
position is `(MIN_FLOAT, 1)` and at its centre-length position
`(MIN_FLOAT, 10)`. -/
theorem c5_magnet_length_bounds_witness :
    (0 : ℝ) < 40 ∧
    boundsAt 40 "Scaling FFA magnet" 3 = (MIN_FLOAT, 40 / 40) ∧
    boundsAt 40 "Scaling FFA magnet" 4 = (MIN_FLOAT, 40 / 4) :=
  ⟨by norm_num, (c5_magnet_length_bounds 40 (by norm_num)).2.1,
    (c5_magnet_length_bounds 40 (by norm_num)).2.2.1⟩

/-! ## Theorems: drift builder geometry (claim C8) -/

/-- C8: the drift builder consumes length `radius * angle` and emits the
offset/normal transform of the claim; at `angle = π/2`, `radius = 10`,
`bend_direction = 1` the consumed length is `10 * (π/2) = 5π ≈ 15.708` and
the end-position offset is `(-10, 10)` with end-normal `(-1, 0)`. -/
theorem c8_drift_builder :
    (∀ bend_direction radius req_angle : ℝ,
      drift_length radius req_angle = radius * req_angle ∧
      (add_drift_settings bend_direction radius req_angle).lookup "end_position_x" =
        some (bend_direction * radius * (Real.cos req_angle - 1)) ∧
      (add_drift_settings bend_direction radius req_angle).lookup "end_position_y" =
        some (radius * Real.sin req_angle) ∧
      (add_drift_settings bend_direction radius req_angle).lookup "end_normal_x" =
        some (-bend_direction * Real.sin req_angle) ∧
      (add_drift_settings bend_direction radius req_angle).lookup "end_normal_y" =
        some (Real.cos req_angle)) ∧
    drift_length 10 (Real.pi / 2) = 5 * Real.pi ∧
    (add_drift_settings 1 10 (Real.pi / 2)).lookup "end_position_x" = some (-10) ∧
    (add_drift_settings 1 10 (Real.pi / 2)).lookup "end_position_y" = some 10 ∧
    (add_drift_settings 1 10 (Real.pi / 2)).lookup "end_normal_x" = some (-1) ∧
    (add_drift_settings 1 10 (Real.pi / 2)).lookup "end_normal_y" = some 0 := by
  have hgen : ∀ bend_direction radius req_angle : ℝ,
      drift_length radius req_angle = radius * req_angle ∧
      (add_drift_settings bend_direction radius req_angle).lookup "end_position_x" =
        some (bend_direction * radius * (Real.cos req_angle - 1)) ∧
      (add_drift_settings bend_direction radius req_angle).lookup "end_position_y" =
        some (radius * Real.sin req_angle) ∧
      (add_drift_settings bend_direction radius req_angle).lookup "end_normal_x" =
        some (-bend_direction * Real.sin req_angle) ∧
      (add_drift_settings bend_direction radius req_angle).lookup "end_normal_y" =
        some (Real.cos req_angle) := by
    intro b r θ
    refine ⟨rfl, ?_, ?_, ?_, ?_⟩ <;> rfl
  refine ⟨hgen, ?_, ?_, ?_, ?_, ?_⟩
  · rw [drift_length]; ring
  · rw [(hgen 1 10 (Real.pi / 2)).2.1, Real.cos_pi_div_two]; norm_num
  · rw [(hgen 1 10 (Real.pi / 2)).2.2.1, Real.sin_pi_div_two]; norm_num
  · rw [(hgen 1 10 (Real.pi / 2)).2.2.2.1, Real.sin_pi_div_two]; norm_num
  · rw [(hgen 1 10 (Real.pi / 2)).2.2.2.2, Real.cos_pi_div_two]

/-! ## Theorems: delete on empty target (claim C9) -/

/-- C9: when the active target (the cell while recording, the ring
otherwise) has no elements, `delete_element` reports "Already empty" and
returns the state completely unchanged; on a non-empty target it succeeds
(no error message). -/
theorem c9_delete_on_empty {K : Type} [LinearOrderedField K] {α : Type}
    (s : GuiState K α) :
    (s.making_cell = false → s.py_list = [] →
      delete_element s = (s, some "Already empty")) ∧
    (s.making_cell = false → s.py_list ≠ [] → (delete_element s).2 = none) ∧
    (s.making_cell = true → s.cell = [] →
      delete_element s = (s, some "Already empty")) ∧
    (s.making_cell = true → s.cell ≠ [] → (delete_element s).2 = none) := by
  refine ⟨fun hm hp => ?_, fun hm hp => ?_, fun hm hc => ?_, fun hm hc => ?_⟩
  · rw [delete_element, hm, if_neg (by simp), if_neg (by simp [hp])]
  · rw [delete_element, hm, if_neg (by simp),
      if_pos (by simpa [List.length_pos] using hp)]
  · rw [delete_element, hm, if_pos rfl, if_neg (by simp [hc])]
  · rw [delete_element, hm, if_pos rfl,
      if_pos (by simpa [List.length_pos] using hc)]

/-- Witness for C9: deleting from a freshly started (empty) ring session
fails with the message and leaves the state unchanged. -/
theorem c9_delete_on_empty_witness :
    delete_element (designRingInit (5 : ℚ) 10 false ([] : List Unit) [] 0 []) =
      (designRingInit (5 : ℚ) 10 false ([] : List Unit) [] 0 [], some "Already empty") :=
  (c9_delete_on_empty _).1 rfl rfl

/-! ## Theorems: the full flag and overfull adds (claim C3) -/

/-- `update_with_element` in ring mode: one line, one stack entry, one
descriptor appended, and `length` subtracted from `ring_space`. -/
theorem update_with_element_ring {K : Type} [LinearOrderedField K] {α : Type}
    (s : GuiState K α) (hm : s.making_cell = false) (new_element : String)
    (ds : List (String × String)) (length : K) (add : α) :
    update_with_element s new_element ds length add =
      { s with
        element_display := s.element_display ++ [displayLine new_element ds]
        ring_space := s.ring_space - length
        space_list := s.space_list ++ [length]
        py_list := s.py_list ++ [add] } := by
  rw [update_with_element, if_neg (by simp [hm])]

/-- C3 (amended): drift, multipole and RF adds are never refused — they
always append their descriptor and subtract the consumed length, letting
`ring_space` go negative, with only a warning by way of the flag — but a
magnet add or a cell replay whose consumed length exceeds the remaining
`ring_space` **is** refused: the state is unchanged except that the `full`
flag is set, and nothing is appended or subtracted.  When the length fits
(`≤ ring_space`, boundary included) the magnet and the cell replay also
append and subtract. -/
theorem c3_full_flag_advisory {K : Type} [LinearOrderedField K] {α : Type}
    (vstr : K → String) (vstrL : List K → String) (s : GuiState K α)
    (hm : s.making_cell = false) :
    (∀ θ (d : α),
      (step vstr vstrL s (.addDrift θ d)).py_list = s.py_list ++ [d] ∧
      (step vstr vstrL s (.addDrift θ d)).ring_space = s.ring_space - s.radius * θ) ∧
    (∀ len ha va tp (d : α),
      (step vstr vstrL s (.addMultipole len ha va tp d)).py_list = s.py_list ++ [d] ∧
      (step vstr vstrL s (.addMultipole len ha va tp d)).ring_space = s.ring_space - len) ∧
    (∀ len w ht (d : α),
      (step vstr vstrL s (.addRF len w ht d)).py_list = s.py_list ++ [d] ∧
      (step vstr vstrL s (.addRF len w ht d)).ring_space = s.ring_space - len) ∧
    (∀ b0 k fs fel fcl rn rp (d : α),
      (s.ring_space < fs + fcl + fel * 4 →
        step vstr vstrL s (.addMag b0 k fs fel fcl rn rp d) = { s with full := true }) ∧
      (fs + fcl + fel * 4 ≤ s.ring_space →
        (step vstr vstrL s (.addMag b0 k fs fel fcl rn rp d)).py_list =
          s.py_list ++ [d] ∧
        (step vstr vstrL s (.addMag b0 k fs fel fcl rn rp d)).ring_space =
          s.ring_space - (fs + fcl + fel * 4))) ∧
    ((s.ring_space < s.cell_size →
        step vstr vstrL s .addCell = { s with full := true }) ∧
      (s.cell_size ≤ s.ring_space →
        (step vstr vstrL s .addCell).py_list = s.py_list ++ s.cell ∧
        (step vstr vstrL s .addCell).ring_space = s.ring_space - s.cell_size)) := by
  have hm' : ({ s with full := false } : GuiState K α).making_cell = false := hm
  refine ⟨fun θ d => ?_, fun len ha va tp d => ?_, fun len w ht d => ?_,
    fun b0 k fs fel fcl rn rp d => ⟨fun hover => ?_, fun hfit => ?_⟩,
    ⟨fun hover => ?_, fun hfit => ?_⟩⟩
  · rw [step, add_drift, update_with_element_ring _ hm']
    exact ⟨rfl, rfl⟩
  · rw [step, add_multipole, update_with_element_ring _ hm']
    exact ⟨rfl, rfl⟩
  · rw [step, add_rf, update_with_element_ring _ hm']
    exact ⟨rfl, rfl⟩
  · rw [step]
    rw [add_ffa_mag, if_neg (by simp only; linarith)]
  · rw [step]
    rw [add_ffa_mag, if_pos (by simp only; linarith),
      update_with_element_ring _ hm']
    exact ⟨rfl, rfl⟩
  · rw [step]
    rw [add_element_cell, if_neg (by simp only; linarith)]
  · rw [step]
    rw [add_element_cell, if_pos (by simp only; linarith)]
    exact ⟨rfl, rfl⟩

/-- Counterexample for C3 as frozen: in a ring session with
`ring_space = 1`, a magnet add whose consumed length is `2` is refused —
the state is returned with only the `full` flag set, nothing is appended
and nothing is subtracted, contradicting "the system never refuses the
addition". -/
theorem c3_counterexample :
    step (fun _ : ℚ => "") (fun _ : List ℚ => "")
      (designRingInit (5 : ℚ) 1 false ([] : List Unit) [] 0 [])
      (.addMag 0 1 2 0 0 0 0 ()) =
    { designRingInit (5 : ℚ) 1 false ([] : List Unit) [] 0 [] with full := true } := by
  rw [step, add_ffa_mag, if_neg (by norm_num [designRingInit])]

/-- Witness for the amended C3 theorem: an overfull drift add in a concrete
session still goes through and leaves `ring_space = 10 - 5 * 3 < 0`. -/
theorem c3_full_flag_advisory_witness :
    (step (fun _ : ℚ => "") (fun _ : List ℚ => "")
        (designRingInit (5 : ℚ) 10 false ([] : List Unit) [] 0 [])
        (.addDrift 3 ())).ring_space = 10 - 5 * 3 :=
  ((c3_full_flag_advisory _ _ _ rfl).1 3 ()).2

/-! ## Theorems: cell atomicity (claim C1) -/

/-- C1: replaying a finalized nonempty cell (total recorded length
`cell_size`) into a ring with enough space appends a copy of the cell's
full descriptor list to `py_list`, reduces `ring_space` by exactly
`cell_size` in one step, pushes `cell_size` as a single undo unit on
`space_list` and one marker line on the display; a single subsequent
`delete_element` succeeds, restores the full `cell_size` to `ring_space`
and removes exactly `len(cell)` trailing descriptors, returning all four
components to their pre-replay values. -/
theorem c1_cell_atomicity {K : Type} [LinearOrderedField K] {α : Type}
    (vstr : K → String) (vstrL : List K → String) (s : GuiState K α)
    (hm : s.making_cell = false) (hne : s.cell ≠ [])
    (hfit : s.cell_size ≤ s.ring_space) :
    (step vstr vstrL s .addCell).py_list = s.py_list ++ s.cell ∧
    (step vstr vstrL s .addCell).ring_space = s.ring_space - s.cell_size ∧
    (step vstr vstrL s .addCell).space_list = s.space_list ++ [s.cell_size] ∧
    (step vstr vstrL s .addCell).element_display = s.element_display ++ ["Cell "] ∧
    (delete_element (step vstr vstrL s .addCell)).2 = none ∧
    ((delete_element (step vstr vstrL s .addCell)).1).py_list = s.py_list ∧
    ((delete_element (step vstr vstrL s .addCell)).1).ring_space = s.ring_space ∧
    ((delete_element (step vstr vstrL s .addCell)).1).space_list = s.space_list ∧
    ((delete_element (step vstr vstrL s .addCell)).1).element_display =
      s.element_display := by
  have hne' : s.cell.length ≠ 0 := fun h => hne (List.length_eq_zero.mp h)
  have hstep : step vstr vstrL s .addCell =
      { s with
        full := false
        element_display := s.element_display ++ ["Cell "]
        ring_space := s.ring_space - s.cell_size
        space_list := s.space_list ++ [s.cell_size]
        py_list := s.py_list ++ s.cell } := by
    rw [step, add_element_cell, if_pos (by simp only; linarith)]
  have hdel : delete_element (step vstr vstrL s .addCell) =
      ({ s with
          full := false
          element_display := s.element_display
          ring_space := s.ring_space - s.cell_size + s.cell_size
          space_list := s.space_list
          py_list := s.py_list }, none) := by
    rw [hstep, delete_element]
    rw [if_neg (by simp [hm])]
    rw [if_pos (by
      simp only [List.length_append]
      have := List.length_pos.mpr hne
      omega)]
    simp only [List.getLast?_concat, Option.getD_some, List.dropLast_concat,
      if_pos, delTrailing, if_neg hne', List.length_append,
      Nat.add_sub_cancel, List.take_left]
  refine ⟨by rw [hstep], by rw [hstep], by rw [hstep], by rw [hstep],
    by rw [hdel], by rw [hdel], ?_, by rw [hdel], by rw [hdel]⟩
  rw [hdel]
  exact sub_add_cancel _ _

/-- Witness for C1: a concrete session with a two-element recorded cell of
size 3; after replay and one delete, `ring_space` is back to 30 and
`py_list` back to empty. -/
theorem c1_cell_atomicity_witness :
    ((delete_element (step (fun _ : ℚ => "") (fun _ : List ℚ => "")
        (designRingInit (5 : ℚ) 30 true [(), ()] [1, 2] 3 []) .addCell)).1).ring_space
      = 30 ∧
    ((delete_element (step (fun _ : ℚ => "") (fun _ : List ℚ => "")
        (designRingInit (5 : ℚ) 30 true [(), ()] [1, 2] 3 []) .addCell)).1).py_list
      = ([] : List Unit) :=
  ⟨(c1_cell_atomicity _ _ _ rfl (by simp [designRingInit])
      (by norm_num [designRingInit])).2.2.2.2.2.2.1,
   (c1_cell_atomicity _ _ _ rfl (by simp [designRingInit])
      (by norm_num [designRingInit])).2.2.2.2.2.1⟩

/-! ## Theorems: conservation invariant (claim C10) -/

/-- Dropping the last element and adding it back preserves the sum. -/
theorem sum_dropLast_add_getLast {K : Type} [LinearOrderedField K] (l : List K) :
    l.dropLast.sum + l.getLast?.getD 0 = l.sum := by
  rcases l.eq_nil_or_concat with rfl | ⟨l', a, rfl⟩
  · simp
  · simp [List.dropLast_concat, List.getLast?_concat, List.sum_append]

/-- `update_with_element` preserves `ring_space = c - sum(space_list)`:
the ring branch subtracts exactly what it pushes, the cell branch touches
neither. -/
theorem inv10_update {K : Type} [LinearOrderedField K] {α : Type}
    (s : GuiState K α) (c length : K) (new_element : String)
    (ds : List (String × String)) (add : α)
    (h : s.ring_space = c - s.space_list.sum) :
    (update_with_element s new_element ds length add).ring_space =
      c - (update_with_element s new_element ds length add).space_list.sum := by
  by_cases hm : s.making_cell
  · rw [update_with_element, if_pos hm]
    exact h
  · rw [update_with_element, if_neg hm]
    simp only [List.sum_append, List.sum_cons, List.sum_nil, add_zero]
    rw [h]
    ring

/-- Every single operation preserves `ring_space = c - sum(space_list)`:
an operation either updates `ring_space` and the stack together or changes
neither. -/
theorem inv10_step {K : Type} [LinearOrderedField K] {α : Type}
    (vstr : K → String) (vstrL : List K → String) (c : K)
    (s : GuiState K α) (op : Op K α)
    (h : s.ring_space = c - s.space_list.sum) :
    (step vstr vstrL s op).ring_space =
      c - (step vstr vstrL s op).space_list.sum := by
  cases op with
  | addMag b0 k fs fel fcl rn rp d =>
    rw [step, add_ffa_mag]
    by_cases hfit :
        (0 : K) ≤ ({ s with full := false } : GuiState K α).ring_space -
          (fs + fcl + fel * 4)
    · rw [if_pos hfit]
      exact inv10_update _ _ _ _ _ _ h
    · rw [if_neg hfit]
      exact h
  | addDrift θ d =>
    rw [step, add_drift]
    exact inv10_update _ _ _ _ _ _ h
  | addMultipole len ha va tp d =>
    rw [step, add_multipole]
    exact inv10_update _ _ _ _ _ _ h
  | addRF len w ht d =>
    rw [step, add_rf]
    exact inv10_update _ _ _ _ _ _ h
  | addCell =>
    rw [step, add_element_cell]
    by_cases hfit :
        (0 : K) ≤ ({ s with full := false } : GuiState K α).ring_space - s.cell_size
    · rw [if_pos hfit]
      simp only [List.sum_append, List.sum_cons, List.sum_nil, add_zero]
      rw [h]
      ring
    · rw [if_neg hfit]
      exact h
  | deleteLast =>
    rw [step, delete_element]
    by_cases hm : s.making_cell = true
    · rw [if_pos hm]
      by_cases hc : 0 < s.cell.length
      · rw [if_pos hc]
        exact h
      · rw [if_neg hc]
        exact h
    · rw [if_neg hm]
      by_cases hp : 0 < s.py_list.length
      · rw [if_pos hp]
        simp only
        rw [h, ← sum_dropLast_add_getLast s.space_list]
        ring
      · rw [if_neg hp]
        exact h

/-- C10: starting from ring setup (`ring_space = radius * 2 * np.pi`,
empty stack), every state reached by any sequence of element adds and
delete-last operations satisfies
`ring_space = radius * 2π - sum(space_list)`. -/
theorem c10_conservation (α : Type) (vstr : ℝ → String) (vstrL : List ℝ → String)
    (radius : ℝ) (hr : 0 < radius) (ops : List (Op ℝ α)) :
    (run vstr vstrL (setupState α radius) ops).ring_space =
      radius * 2 * Real.pi -
        (run vstr vstrL (setupState α radius) ops).space_list.sum := by
  have key : ∀ (l : List (Op ℝ α)) (s : GuiState ℝ α),
      s.ring_space = radius * 2 * Real.pi - s.space_list.sum →
      (run vstr vstrL s l).ring_space =
        radius * 2 * Real.pi - (run vstr vstrL s l).space_list.sum := by
    intro l
    induction l with
    | nil => intro s h; exact h
    | cons op rest ih =>
      intro s h
      rw [run, List.foldl_cons]
      exact ih _ (inv10_step vstr vstrL _ s op h)
  exact key ops _ (by simp [setupState, designRingInit])

/-- Witness for C10 at `radius = 1` and the empty operation sequence. -/
theorem c10_conservation_witness :
    (run (fun _ : ℝ => "") (fun _ : List ℝ => "")
        (setupState Unit 1) []).ring_space =
      1 * 2 * Real.pi -
        (run (fun _ : ℝ => "") (fun _ : List ℝ => "")
          (setupState Unit 1) []).space_list.sum :=
  c10_conservation Unit (fun _ => "") (fun _ => "") 1 (by norm_num) []

/-! ## Theorems: round trip (claim C2) -/

/-- A display line built by `update_with_element` for a real element never
collides with the cell-replay marker: its first character is the element
name's first character, which is not `'C'` for any of the four names. -/
theorem displayLine_ne_cell (new_element : String) (ds : List (String × String))
    (c : Char) (t : List Char) (hdata : new_element.data = c :: t)
    (hc : c ≠ 'C') : displayLine new_element ds ≠ "Cell " := by
  intro heq
  have h1 : (displayLine new_element ds).data = ("Cell " : String).data := by
    rw [heq]
  rw [displayLine, String.data_append, hdata] at h1
  have h2 : ("Cell " : String).data = ['C', 'e', 'l', 'l', ' '] := rfl
  rw [h2] at h1
  have h3 := congrArg List.head? h1
  simp only [List.cons_append, List.head?_cons] at h3
  exact hc (Option.some.injEq _ _ ▸ h3)

/-- Appending an ordinary (non-marker) element line in ring mode preserves
the ring invariant and grows the display by one line. -/
theorem ringInv_append_elem {K : Type} [LinearOrderedField K] {α : Type}
    (cell0 : List α) (space0 : K) (s : GuiState K α)
    (hInv : RingInv cell0 space0 s) (new_element : String)
    (ds : List (String × String)) (length : K) (add : α)
    (hline : displayLine new_element ds ≠ "Cell ") :
    RingInv cell0 space0 (update_with_element s new_element ds length add) ∧
    (update_with_element s new_element ds length add).element_display.length =
      s.element_display.length + 1 := by
  obtain ⟨h1, h2, h3, h4, h5, h6⟩ := hInv
  rw [update_with_element_ring _ h1]
  refine ⟨⟨h1, h2, ?_, ?_, ?_, ?_⟩, by simp⟩
  · simp only [List.sum_append, List.sum_cons, List.sum_nil, add_zero]
    rw [h3]
    ring
  · simp [h4]
  · simp only [List.length_append, List.map_append, List.sum_append,
      List.map_cons, List.map_nil, List.sum_cons, List.sum_nil, add_zero,
      List.length_cons, List.length_nil]
    rw [h5, blockSize, if_neg hline]
  · intro line hl hcl
    rcases List.mem_append.mp hl with hmem | hmem
    · exact h6 line hmem hcl
    · rw [List.mem_singleton.mp hmem] at hcl
      exact absurd hcl hline

/-- Each element add (with a nonempty cell whenever it is a cell replay)
preserves the ring invariant and appends at most one display line. -/
theorem ringInv_step_add {K : Type} [LinearOrderedField K] {α : Type}
    (vstr : K → String) (vstrL : List K → String) (cell0 : List α) (space0 : K)
    (s : GuiState K α) (op : Op K α) (hop : op.isAdd = true)
    (hcell : op = Op.addCell → cell0 ≠ []) (hInv : RingInv cell0 space0 s) :
    RingInv cell0 space0 (step vstr vstrL s op) ∧
    (step vstr vstrL s op).element_display.length ≤ s.element_display.length + 1 := by
  cases op with
  | deleteLast => exact absurd hop (by simp [Op.isAdd])
  | addDrift θ d =>
    rw [step, add_drift]
    have h := ringInv_append_elem cell0 space0 { s with full := false } hInv
      "Drift" [("angle", vstr θ)] (drift_length s.radius θ) d
      (displayLine_ne_cell _ _ 'D' _ rfl (by decide))
    exact ⟨h.1, le_of_eq h.2⟩
  | addMultipole len ha va tp d =>
    rw [step, add_multipole]
    have h := ringInv_append_elem cell0 space0 { s with full := false } hInv
      "Multipole" [("fields", vstrL tp), ("length", vstr len)] len d
      (displayLine_ne_cell _ _ 'M' _ rfl (by decide))
    exact ⟨h.1, le_of_eq h.2⟩
  | addRF len w ht d =>
    rw [step, add_rf]
    have h := ringInv_append_elem cell0 space0 { s with full := false } hInv
      "RF" [("length", vstr len), ("width", vstr w), ("height", vstr ht)] len d
      (displayLine_ne_cell _ _ 'R' _ rfl (by decide))
    exact ⟨h.1, le_of_eq h.2⟩
  | addMag b0 k fs fel fcl rn rp d =>
    rw [step, add_ffa_mag]
    by_cases hfit :
        (0 : K) ≤ ({ s with full := false } : GuiState K α).ring_space -
          (fs + fcl + fel * 4)
    · rw [if_pos hfit]
      have h := ringInv_append_elem cell0 space0 { s with full := false } hInv
        "Scaling FFA magnet"
        [("b0", vstr b0), ("k", vstr k), ("start", vstr fs),
         ("centre_length", vstr fcl), ("end length", vstr fel)]
        (fs + fcl + fel * 4) d
        (displayLine_ne_cell _ _ 'S' _ rfl (by decide))
      exact ⟨h.1, le_of_eq h.2⟩
    · rw [if_neg hfit]
      exact ⟨hInv, by simp⟩
  | addCell =>
    rw [step, add_element_cell]
    by_cases hfit :
        (0 : K) ≤ ({ s with full := false } : GuiState K α).ring_space - s.cell_size
    · rw [if_pos hfit]
      obtain ⟨h1, h2, h3, h4, h5, h6⟩ := hInv
      refine ⟨⟨h1, h2, ?_, ?_, ?_, ?_⟩, by simp⟩
      · simp only [List.sum_append, List.sum_cons, List.sum_nil, add_zero]
        rw [h3]
        ring
      · simp [h4]
      · simp only [List.length_append, List.map_append, List.sum_append,
          List.map_cons, List.map_nil, List.sum_cons, List.sum_nil, add_zero]
        rw [h5, h2, blockSize, if_pos rfl]
      · intro line hl hcl
        rcases List.mem_append.mp hl with hmem | hmem
        · exact h6 line hmem hcl
        · exact hcell rfl
    · rw [if_neg hfit]
      exact ⟨hInv, by simp⟩

/-- A delete preserves the ring invariant and removes exactly one display
line (no-op on an empty ring, whose display is already empty). -/
theorem ringInv_step_delete {K : Type} [LinearOrderedField K] {α : Type}
    (vstr : K → String) (vstrL : List K → String) (cell0 : List α) (space0 : K)
    (s : GuiState K α) (hInv : RingInv cell0 space0 s) :
    RingInv cell0 space0 (step vstr vstrL s .deleteLast) ∧
    (step vstr vstrL s .deleteLast).element_display.length =
      s.element_display.length - 1 := by
  obtain ⟨h1, h2, h3, h4, h5, h6⟩ := hInv
  rw [step, delete_element, if_neg (by simp [h1])]
  by_cases hp : 0 < s.py_list.length
  case neg =>
    rw [if_neg hp]
    have hsum : (s.element_display.map (blockSize cell0.length)).sum = 0 := by
      rw [← h5]
      omega
    have hdisp : s.element_display = [] := by
      by_contra hne
      obtain ⟨l, hl⟩ := List.exists_mem_of_ne_nil _ hne
      have hz := List.sum_eq_zero_iff.mp hsum (blockSize cell0.length l)
        (List.mem_map_of_mem _ hl)
      rw [blockSize] at hz
      by_cases hcl : l = "Cell "
      · rw [if_pos hcl] at hz
        exact h6 l hl hcl (List.length_eq_zero.mp hz)
      · rw [if_neg hcl] at hz
        exact one_ne_zero hz
    refine ⟨⟨h1, h2, h3, h4, h5, h6⟩, ?_⟩
    rw [hdisp]
    rfl
  case pos =>
    rw [if_pos hp]
    have hdne : s.element_display ≠ [] := by
      intro hd
      rw [hd] at h5
      simp only [List.map_nil, List.sum_nil] at h5
      omega
    obtain ⟨d', last, hconcat0⟩ :=
      (List.eq_nil_or_concat s.element_display).resolve_left hdne
    have hconcat : s.element_display = d' ++ [last] := by
      rw [hconcat0, List.concat_eq_append]
    have hlastmem : last ∈ s.element_display := by
      rw [hconcat]
      exact List.mem_append_right _ (List.mem_singleton_self _)
    refine ⟨⟨h1, h2, ?_, ?_, ?_, ?_⟩, ?_⟩
    · show s.ring_space + s.space_list.getLast?.getD 0 =
        space0 - s.space_list.dropLast.sum
      rw [h3, ← sum_dropLast_add_getLast s.space_list]
      ring
    · show s.element_display.dropLast.length = s.space_list.dropLast.length
      simp only [List.length_dropLast, h4]
    · show (if s.element_display.getLast?.getD "" = "Cell " then
          delTrailing s.py_list s.cell.length
        else s.py_list.dropLast).length =
        (s.element_display.dropLast.map (blockSize cell0.length)).sum
      rw [hconcat, List.getLast?_concat, List.dropLast_concat, Option.getD_some]
      have hpy : s.py_list.length =
          (d'.map (blockSize cell0.length)).sum + blockSize cell0.length last := by
        rw [h5, hconcat]
        simp [List.map_append]
      by_cases hcl : last = "Cell "
      · have hn : cell0 ≠ [] := h6 last hlastmem hcl
        have hn' : cell0.length ≠ 0 := fun h => hn (List.length_eq_zero.mp h)
        rw [if_pos hcl, h2, delTrailing, if_neg hn', List.length_take]
        rw [blockSize, if_pos hcl] at hpy
        omega
      · rw [if_neg hcl, List.length_dropLast]
        rw [blockSize, if_neg hcl] at hpy
        omega
    · show ∀ line ∈ s.element_display.dropLast, line = "Cell " → cell0 ≠ []
      intro line hl
      exact h6 line ((List.dropLast_sublist _).subset hl)
    · show s.element_display.dropLast.length = s.element_display.length - 1
      exact List.length_dropLast _

/-- Running a sequence of element adds preserves the ring invariant and
grows the display by at most one line per add. -/
theorem ringInv_run_adds {K : Type} [LinearOrderedField K] {α : Type}
    (vstr : K → String) (vstrL : List K → String) (cell0 : List α) (space0 : K)
    (ops : List (Op K α)) (hops : ∀ op ∈ ops, op.isAdd = true)
    (hcell : Op.addCell ∈ ops → cell0 ≠ []) :
    ∀ s : GuiState K α, RingInv cell0 space0 s →
      RingInv cell0 space0 (run vstr vstrL s ops) ∧
      (run vstr vstrL s ops).element_display.length ≤
        s.element_display.length + ops.length := by
  induction ops with
  | nil => intro s hInv; exact ⟨hInv, by simp [run]⟩
  | cons op rest ih =>
    intro s hInv
    have hstep := ringInv_step_add vstr vstrL cell0 space0 s op
      (hops op (List.mem_cons_self _ _))
      (fun he => hcell (he ▸ List.mem_cons_self _ _)) hInv
    have hrest := ih (fun o ho => hops o (List.mem_cons_of_mem _ ho))
      (fun hm => hcell (List.mem_cons_of_mem _ hm))
      (step vstr vstrL s op) hstep.1
    rw [run, List.foldl_cons]
    refine ⟨hrest.1, ?_⟩
    have := hrest.2
    rw [run] at this
    simp only [List.length_cons]
    omega

/-- Running `n` deletes from a well-formed ring state with at most `n`
recorded units empties the display (extra deletes are no-ops). -/
theorem ringInv_run_deletes {K : Type} [LinearOrderedField K] {α : Type}
    (vstr : K → String) (vstrL : List K → String) (cell0 : List α) (space0 : K) :
    ∀ (n : ℕ) (s : GuiState K α), RingInv cell0 space0 s →
      s.element_display.length ≤ n →
      RingInv cell0 space0
        (run vstr vstrL s (List.replicate n Op.deleteLast)) ∧
      (run vstr vstrL s (List.replicate n Op.deleteLast)).element_display = [] := by
  intro n
  induction n with
  | zero =>
    intro s hInv hlen
    refine ⟨?_, ?_⟩ <;> rw [List.replicate_zero, run, List.foldl_nil]
    · exact hInv
    · exact List.length_eq_zero.mp (by omega)
  | succ m ih =>
    intro s hInv hlen
    have hstep := ringInv_step_delete vstr vstrL cell0 space0 s hInv
    rw [List.replicate_succ, run, List.foldl_cons]
    have := ih (step vstr vstrL s .deleteLast) hstep.1 (by omega)
    rw [run] at this
    exact this

/-- C2 (amended): in any ring session — any radius, initial `ring_space`,
and recorded cell whose element list is nonempty if it is ever replayed —
any sequence of element adds followed by an equal number of delete-last
operations brings `ring_space` back exactly to its pre-add value and leaves
`py_list`, the display log and the length stack empty. -/
theorem c2_round_trip {K : Type} [LinearOrderedField K] {α : Type}
    (vstr : K → String) (vstrL : List K → String) (radius space0 : K)
    (made_cell : Bool) (cell0 : List α) (cls : List K) (csz : K)
    (cd : List String) (ops : List (Op K α))
    (hops : ∀ op ∈ ops, op.isAdd = true)
    (hcell : Op.addCell ∈ ops → cell0 ≠ []) :
    (run vstr vstrL (designRingInit radius space0 made_cell cell0 cls csz cd)
        (ops ++ List.replicate ops.length Op.deleteLast)).ring_space = space0 ∧
    (run vstr vstrL (designRingInit radius space0 made_cell cell0 cls csz cd)
        (ops ++ List.replicate ops.length Op.deleteLast)).py_list = [] ∧
    (run vstr vstrL (designRingInit radius space0 made_cell cell0 cls csz cd)
        (ops ++ List.replicate ops.length Op.deleteLast)).element_display = [] ∧
    (run vstr vstrL (designRingInit radius space0 made_cell cell0 cls csz cd)
        (ops ++ List.replicate ops.length Op.deleteLast)).space_list = [] := by
  have hInit : RingInv cell0 space0
      (designRingInit (α := α) radius space0 made_cell cell0 cls csz cd) := by
    refine ⟨rfl, rfl, by simp [designRingInit], rfl, rfl, by simp [designRingInit]⟩
  have hadds := ringInv_run_adds vstr vstrL cell0 space0 ops hops hcell _ hInit
  have hfin := ringInv_run_deletes vstr vstrL cell0 space0 ops.length
    (run vstr vstrL (designRingInit radius space0 made_cell cell0 cls csz cd) ops)
    hadds.1 (by have := hadds.2; simpa [designRingInit] using this)
  rw [run, List.foldl_append,
    show List.foldl (step vstr vstrL)
        (designRingInit radius space0 made_cell cell0 cls csz cd) ops =
      run vstr vstrL (designRingInit radius space0 made_cell cell0 cls csz cd) ops
      from rfl,
    show List.foldl (step vstr vstrL)
        (run vstr vstrL (designRingInit radius space0 made_cell cell0 cls csz cd) ops)
        (List.replicate ops.length Op.deleteLast) =
      run vstr vstrL
        (run vstr vstrL (designRingInit radius space0 made_cell cell0 cls csz cd) ops)
        (List.replicate ops.length Op.deleteLast)
      from rfl]
  obtain ⟨⟨g1, g2, g3, g4, g5, g6⟩, hempty⟩ := hfin
  have hsp : (run vstr vstrL
      (run vstr vstrL (designRingInit radius space0 made_cell cell0 cls csz cd) ops)
      (List.replicate ops.length Op.deleteLast)).space_list = [] := by
    rw [hempty] at g4
    exact List.length_eq_zero.mp g4.symm
  refine ⟨?_, ?_, hempty, hsp⟩
  · rw [g3, hsp]
    simp
  · rw [hempty] at g5
    simp only [List.map_nil, List.sum_nil] at g5
    exact List.length_eq_zero.mp g5

/-- Witness for the amended C2 theorem: one drift add followed by one
delete in a concrete rational session. -/
theorem c2_round_trip_witness :
    (run (fun _ : ℚ => "") (fun _ : List ℚ => "")
        (designRingInit (5 : ℚ) 7 false ([] : List Unit) [] 0 [])
        [Op.addDrift 1 (), Op.deleteLast]).ring_space = 7 ∧
    (run (fun _ : ℚ => "") (fun _ : List ℚ => "")
        (designRingInit (5 : ℚ) 7 false ([] : List Unit) [] 0 [])
        [Op.addDrift 1 (), Op.deleteLast]).py_list = [] ∧
    (run (fun _ : ℚ => "") (fun _ : List ℚ => "")
        (designRingInit (5 : ℚ) 7 false ([] : List Unit) [] 0 [])
        [Op.addDrift 1 (), Op.deleteLast]).element_display = [] ∧
    (run (fun _ : ℚ => "") (fun _ : List ℚ => "")
        (designRingInit (5 : ℚ) 7 false ([] : List Unit) [] 0 [])
        [Op.addDrift 1 (), Op.deleteLast]).space_list = [] :=
  c2_round_trip (fun _ => "") (fun _ => "") 5 7 false [] [] 0 []
    [Op.addDrift 1 ()] (by decide) (by decide)

/-- Counterexample for C2 as frozen: in a real session of radius 1 with a
recorded **empty** cell, one add (a cell replay) followed by one delete
does not return the display log to empty — the replay appended the marker
line but no descriptors, so the delete finds `py_list` empty and refuses,
leaving the marker line behind. -/
theorem c2_counterexample :
    (run (fun _ : ℝ => "") (fun _ : List ℝ => "")
        (designRingInit (1 : ℝ) (1 * 2 * Real.pi) true ([] : List Unit) [] 0 [])
        [Op.addCell, Op.deleteLast]).element_display ≠ [] := by
  have hstep : step (fun _ : ℝ => "") (fun _ : List ℝ => "")
      (designRingInit (1 : ℝ) (1 * 2 * Real.pi) true ([] : List Unit) [] 0 [])
      .addCell =
      { designRingInit (1 : ℝ) (1 * 2 * Real.pi) true ([] : List Unit) [] 0 [] with
        full := false
        element_display := ["Cell "]
        ring_space := 1 * 2 * Real.pi - 0
        space_list := [0]
        py_list := [] } := by
    rw [step, add_element_cell, if_pos (by
      simp only [designRingInit]
      ring_nf
      positivity)]
    rfl
  rw [run, List.foldl_cons, List.foldl_cons, List.foldl_nil, hstep]
  rw [step, delete_element, if_neg (by simp [designRingInit]), if_neg (by simp)]
  simp
